import Mathlib

/-!
Verification of the snapshot-preprocessing engine documented in this
repository (shift/scale primitives, `SnapshotTransformer`,
`SnapshotTransformerMulti`, and the tutorial's Euler lifting maps).

The repository ships only the tutorial notebook
`docs/source/tutorials/preprocessing.ipynb`; the implementation of
`opinf.pre` itself is not part of the sources here, so the shift/scale
primitives and the transformer classes are modelled from the
specification's component design.  The `lift`/`unlift` pair is embedded
directly from the notebook's code.

Numbers are modelled as rationals (exact real arithmetic); matrices are
lists of rows.  The square root needed by the `standard` scaling mode is
irrational in general, so it is abstracted as a function parameter `sq`;
every property proved here only uses that `sq` sends positive numbers to
nonzero numbers, which the true square root satisfies.
-/

/-- A snapshot matrix: a list of rows (n rows of k entries each). -/
abbrev Mat := List (List ℚ)

/-- Error taxonomy of the spec: shape, state, and configuration errors. -/
inductive TError
| shape
| state
| config
deriving DecidableEq, Repr

/-- Arithmetic mean of a list of numbers (0 for the empty list). -/
def meanOf (l : List ℚ) : ℚ := l.sum / l.length

/-- All entries of a matrix, row-major. -/
def entries (S : Mat) : List ℚ := S.flatten

/-- Maximum entry of a list (0 for the empty list). -/
def listMax : List ℚ → ℚ
| [] => 0
| x :: xs => xs.foldl max x

/-- Minimum entry of a list (0 for the empty list). -/
def listMin : List ℚ → ℚ
| [] => 0
| x :: xs => xs.foldl min x

/-- Largest absolute value of a list of numbers. -/
def maxAbs (l : List ℚ) : ℚ := listMax (l.map (fun x => |x|))

/-- Population variance of a list of numbers. -/
def varOf (l : List ℚ) : ℚ := meanOf (l.map (fun x => (x - meanOf l) ^ 2))

/-- Subtract a per-row reference value from each row, broadcast over columns. -/
def subRef (S : Mat) (ref : List ℚ) : Mat :=
List.zipWith (fun r m => r.map (fun x => x - m)) S ref

/-- Modelled from the spec: the shift primitive
`shift(S, reference=None) -> (Q, reference)`.  If `reference` is omitted it
is computed as the arithmetic mean across columns of `S` (one value per
row); a supplied reference of mismatched length is a dimension error;
the output is `Q = S - reference` broadcast over columns, returned
together with the reference. -/
def shiftOp (S : Mat) (reference : Option (List ℚ)) : Except TError (Mat × List ℚ) :=
match reference with
| none => Except.ok (subRef S (S.map meanOf), S.map meanOf)
| some ref =>
    if ref.length = S.length then Except.ok (subRef S ref, ref) else Except.error TError.shape

/-- Modelled from the spec: `unshift(Q, reference) = Q + reference`,
the exact algebraic inverse of the shift primitive. -/
def unshift (Q : Mat) (ref : List ℚ) : Mat :=
List.zipWith (fun r m => r.map (fun x => x + m)) Q ref

/-- Modelled from the spec: the closed tagged variant of scaling modes;
`minmax` carries its target interval `(a, b)`. -/
inductive ScalingMode
| standard
| minmax (a b : ℚ)
| maxabs
| maxabssym
deriving DecidableEq, Repr

/-- Scale parameters: a single global `(scale1, scale2)` pair, or one pair
per row when scaling is applied by row. -/
inductive ScaleParams
| globalp (s1 s2 : ℚ)
| rowp (ps : List (ℚ × ℚ))
deriving DecidableEq, Repr

/-- Modelled from the spec: derivation of `(scale1, scale2)` from one data
set for each scaling mode.  `standard`: `(std, mean)`, nonzero standard
deviation required (equivalently, nonzero variance); `minmax`:
`((max-min)/(b-a), min - a*scale1)`, requiring a nondegenerate target
interval and observed range; `maxabs`/`maxabssym`: `(max|S|, 0)` with
nonzero max-abs required.  Degenerate scales are configuration errors per
the spec's error-handling policy.  `sq` abstracts the square root. -/
def modeParams (sq : ℚ → ℚ) (mode : ScalingMode) (l : List ℚ) : Except TError (ℚ × ℚ) :=
match mode with
| ScalingMode.standard =>
    if varOf l = 0 then Except.error TError.config
    else Except.ok (sq (varOf l), meanOf l)
| ScalingMode.minmax a b =>
    if a < b ∧ listMin l < listMax l then
      Except.ok ((listMax l - listMin l) / (b - a),
                 listMin l - a * ((listMax l - listMin l) / (b - a)))
    else Except.error TError.config
| ScalingMode.maxabs =>
    if maxAbs l = 0 then Except.error TError.config else Except.ok (maxAbs l, 0)
| ScalingMode.maxabssym =>
    if maxAbs l = 0 then Except.error TError.config else Except.ok (maxAbs l, 0)

/-- Apply scale parameters: `Q = (S - scale2) / scale1`, globally or per row. -/
def applyScale : ScaleParams → Mat → Mat
| ScaleParams.globalp s1 s2, S => S.map (fun r => r.map (fun x => (x - s2) / s1))
| ScaleParams.rowp ps, S =>
    List.zipWith (fun r p => r.map (fun x => (x - p.2) / p.1)) S ps

/-- Modelled from the spec: the inverse scaling `S = Q * scale1 + scale2`. -/
def unscale : ScaleParams → Mat → Mat
| ScaleParams.globalp s1 s2, Q => Q.map (fun r => r.map (fun x => x * s1 + s2))
| ScaleParams.rowp ps, Q =>
    List.zipWith (fun r p => r.map (fun x => x * p.1 + p.2)) Q ps

/-- Error-propagating map over a list (each element may fail). -/
def mapE (f : α → Except TError β) : List α → Except TError (List β)
| [] => Except.ok []
| a :: l => do
    let b ← f a
    let bs ← mapE f l
    Except.ok (b :: bs)

/-- Modelled from the spec: the scale primitive.  With `byrow` the
parameters are computed independently per row; otherwise one global pair
is computed over all entries of the matrix. -/
def scaleOp (sq : ℚ → ℚ) (mode : ScalingMode) (byrow : Bool) (S : Mat) :
    Except TError (Mat × ScaleParams) :=
if byrow then do
  let ps ← mapE (modeParams sq mode) S
  Except.ok (applyScale (ScaleParams.rowp ps) S, ScaleParams.rowp ps)
else do
  let p ← modeParams sq mode (entries S)
  Except.ok (applyScale (ScaleParams.globalp p.1 p.2) S, ScaleParams.globalp p.1 p.2)

/-- Configuration of a single-variable transformer. -/
structure STConfig where
  center : Bool
  scaling : Option ScalingMode
  byrow : Bool
deriving DecidableEq, Repr

/-- Modelled from the spec: the transformer state
`{fitted, center, scaling, byrow, reference, scale_params}`; `reference`
and `scaleParams` stay `none` until fitted. -/
structure SnapshotTransformer where
  cfg : STConfig
  fitted : Bool
  n : Nat
  reference : Option (List ℚ)
  scaleParams : Option ScaleParams
deriving DecidableEq, Repr

/-- Modelled from the spec: a freshly constructed, unfitted transformer. -/
def SnapshotTransformer.init (cfg : STConfig) : SnapshotTransformer :=
⟨cfg, false, 0, none, none⟩

/-- A list of rows is rectangular (all rows of equal length). -/
def isRect (S : Mat) : Bool :=
match S with
| [] => true
| r :: rs => rs.all (fun q => q.length = r.length)

/-- Modelled from the spec: `fit(S)` validates that `S` is a 2-D matrix;
if `center`, runs the shift primitive and stores the reference; then if
`scaling` is set, runs the scale primitive on the already-centered data
and stores the parameters; transitions to `fitted`, recording the row
dimension. -/
def SnapshotTransformer.fit (sq : ℚ → ℚ) (st : SnapshotTransformer) (S : Mat) :
    Except TError SnapshotTransformer :=
if isRect S = false then Except.error TError.shape else
  let centered := if st.cfg.center then subRef S (S.map meanOf) else S
  let ref : Option (List ℚ) := if st.cfg.center then some (S.map meanOf) else none
  match st.cfg.scaling with
  | none => Except.ok ⟨st.cfg, true, S.length, ref, none⟩
  | some mode =>
      match scaleOp sq mode st.cfg.byrow centered with
      | Except.error e => Except.error e
      | Except.ok pr => Except.ok ⟨st.cfg, true, S.length, ref, some pr.2⟩

/-- Modelled from the spec: `transform(S)` requires `fitted` (state error
otherwise) and `S.rows == n` (shape error otherwise), then applies the
stored shift followed by the stored scale. -/
def SnapshotTransformer.transform (st : SnapshotTransformer) (S : Mat) : Except TError Mat :=
if st.fitted = false then Except.error TError.state
else if S.length ≠ st.n then Except.error TError.shape
else
  let q1 := match st.reference with
    | none => S
    | some ref => subRef S ref
  let q2 := match st.scaleParams with
    | none => q1
    | some ps => applyScale ps q1
  Except.ok q2

/-- Modelled from the spec: `inverse_transform(Q)` requires `fitted` and
`Q.rows == n`, then applies the inverse scale followed by the inverse
shift (strict inverse ordering). -/
def SnapshotTransformer.inverseTransform (st : SnapshotTransformer) (Q : Mat) :
    Except TError Mat :=
if st.fitted = false then Except.error TError.state
else if Q.length ≠ st.n then Except.error TError.shape
else
  let q1 := match st.scaleParams with
    | none => Q
    | some ps => unscale ps Q
  let q2 := match st.reference with
    | none => q1
    | some ref => unshift q1 ref
  Except.ok q2

/-- Modelled from the spec: `fit` mutates the transformer in place; per
the propagation policy a failed fit leaves the state unchanged.  The
in-place mutation is modelled as a step from the old state to the new
state paired with the optional error. -/
def SnapshotTransformer.fitStep (sq : ℚ → ℚ) (st : SnapshotTransformer) (S : Mat) :
    SnapshotTransformer × Option TError :=
match st.fit sq S with
| Except.ok st2 => (st2, none)
| Except.error e => (st, some e)

/-- Per-block configuration of a multi-variable transformer: one
`STConfig` per variable, and optionally explicit block sizes. -/
structure MultiConfig where
  cfgs : List STConfig
  sizes : Option (List Nat)
deriving DecidableEq, Repr

/-- Fitted state of a multi-variable transformer: the persisted block
sizes and one fitted transformer per contiguous row-block. -/
structure STMulti where
  sizes : List Nat
  blocks : List SnapshotTransformer
deriving DecidableEq, Repr

/-- Split a matrix into contiguous row-blocks of the given sizes. -/
def splitSizes : List Nat → Mat → List Mat
| [], _ => []
| c :: cs, S => S.take c :: splitSizes cs (S.drop c)

/-- Modelled from the spec: `SnapshotTransformerMulti.fit`.  With explicit
`variable_sizes` their number must match the number of variables, all
must be positive, and they must sum to the row count; otherwise the row
count must divide evenly by the number of variables.  The matrix is
partitioned into contiguous row-blocks and one fresh `SnapshotTransformer`
is fitted per block with that block's settings. -/
def STMulti.fit (sq : ℚ → ℚ) (mc : MultiConfig) (S : Mat) : Except TError STMulti :=
match mc.sizes with
| some sz =>
    if sz.length = mc.cfgs.length ∧ sz.all (fun c => 0 < c) ∧ sz.sum = S.length then do
      let sts ← mapE (fun cb => SnapshotTransformer.fit sq (SnapshotTransformer.init cb.1) cb.2)
        (mc.cfgs.zip (splitSizes sz S))
      Except.ok ⟨sz, sts⟩
    else Except.error TError.shape
| none =>
    if mc.cfgs.length ≠ 0 ∧ S.length % mc.cfgs.length = 0 then do
      let sz := List.replicate mc.cfgs.length (S.length / mc.cfgs.length)
      let sts ← mapE (fun cb => SnapshotTransformer.fit sq (SnapshotTransformer.init cb.1) cb.2)
        (mc.cfgs.zip (splitSizes sz S))
      Except.ok ⟨sz, sts⟩
    else Except.error TError.shape

/-- Modelled from the spec: `SnapshotTransformerMulti.transform`
re-partitions the input along the persisted block boundaries, delegates
to each block's transformer, and re-stacks the results by rows. -/
def STMulti.transform (mst : STMulti) (S : Mat) : Except TError Mat :=
if S.length ≠ mst.sizes.sum then Except.error TError.shape else do
  let qs ← mapE (fun tb => SnapshotTransformer.transform tb.1 tb.2)
    (mst.blocks.zip (splitSizes mst.sizes S))
  Except.ok qs.flatten

/-- From the notebook source: `np.split(state, 3)`, three equal parts. -/
def split3 (s : List ℚ) : List ℚ × List ℚ × List ℚ :=
(s.take (s.length / 3), (s.drop (s.length / 3)).take (s.length / 3),
 s.drop (2 * (s.length / 3)))

/-- From the notebook source: `lift` maps the conservative Euler variables
`[rho, rho*u, rho*e]` to the learning variables `[u, p, 1/rho]`:
`u = rho_u/rho`, `p = (gamma-1)*(rho_e - 0.5*rho*u^2)`, `zeta = 1/rho`. -/
def lift (state : List ℚ) (gamma : ℚ) : List ℚ :=
let rho := (split3 state).1
let rho_u := (split3 state).2.1
let rho_e := (split3 state).2.2
let u := List.zipWith (fun a b => a / b) rho_u rho
let p := List.zipWith (fun re ru => (gamma - 1) * (re - (1 / 2) * ru.1 * ru.2 ^ 2))
  rho_e (rho.zip u)
let zeta := rho.map (fun a => 1 / a)
u ++ p ++ zeta

/-- From the notebook source: `unlift` maps the learning variables
`[u, p, 1/rho]` back to the conservative variables `[rho, rho*u, rho*e]`:
`rho = 1/zeta`, `rho_u = rho*u`, `rho_e = p/(gamma-1) + 0.5*rho*u^2`. -/
def unlift (upzeta : List ℚ) (gamma : ℚ) : List ℚ :=
let u := (split3 upzeta).1
let p := (split3 upzeta).2.1
let zeta := (split3 upzeta).2.2
let rho := zeta.map (fun a => 1 / a)
let rho_u := List.zipWith (fun a b => a * b) rho u
let rho_e := List.zipWith (fun pp ru => pp / (gamma - 1) + (1 / 2) * ru.1 * ru.2 ^ 2)
  p (rho.zip u)
rho ++ rho_u ++ rho_e

/-! ### Basic lemmas about shifting -/

lemma map_sub_add_cancel (r : List ℚ) (m : ℚ) :
    (r.map (fun x => x - m)).map (fun x => x + m) = r := by
  simp [List.map_map, Function.comp_def, sub_add_cancel]

lemma unshift_subRef : ∀ (S : Mat) (ref : List ℚ), S.length ≤ ref.length →
    unshift (subRef S ref) ref = S := by
  intro S
  induction S with
  | nil => intro ref _; rfl
  | cons r rs ih =>
      intro ref h
      cases ref with
      | nil => simp at h
      | cons m ms =>
          simp only [subRef, unshift, List.zipWith_cons_cons]
          rw [map_sub_add_cancel]
          exact congrArg (r :: ·) (ih ms (by simpa using h))

lemma subRef_length (S : Mat) (ref : List ℚ) :
    (subRef S ref).length = min S.length ref.length := by
  simp [subRef]

/-- C2: `shift(S)` with the reference omitted computes the reference as the
arithmetic mean of `S` across columns (one value per row), returns
`Q = S - reference` broadcast over columns together with that reference,
and `unshift(Q, reference) = Q + reference` recovers `S` exactly, with no
approximation. -/
theorem shift_mean_unshift (S : Mat) :
    shiftOp S none =
      Except.ok
        (List.zipWith (fun r m => r.map (fun x => x - m)) S
          (S.map (fun r => r.sum / (r.length : ℚ))),
         S.map (fun r => r.sum / (r.length : ℚ))) ∧
    unshift (subRef S (S.map meanOf)) (S.map meanOf) = S := by
  refine ⟨rfl, unshift_subRef S (S.map meanOf) (by simp)⟩

/-- C5: on a transformer that has never been fitted, `transform` and
`inverse_transform` raise the state error rather than silently returning
a result. -/
theorem unfitted_state_error (st : SnapshotTransformer) (S Q : Mat)
    (h : st.fitted = false) :
    st.transform S = Except.error TError.state ∧
    st.inverseTransform Q = Except.error TError.state := by
  constructor
  · simp [SnapshotTransformer.transform, h]
  · simp [SnapshotTransformer.inverseTransform, h]

theorem unfitted_state_error_witness :
    (SnapshotTransformer.init ⟨true, some ScalingMode.standard, false⟩).fitted = false ∧
    (SnapshotTransformer.init ⟨true, some ScalingMode.standard, false⟩).transform [[1]] =
      Except.error TError.state ∧
    (SnapshotTransformer.init ⟨true, some ScalingMode.standard, false⟩).inverseTransform [[2]] =
      Except.error TError.state :=
⟨rfl,
 (unfitted_state_error (SnapshotTransformer.init ⟨true, some ScalingMode.standard, false⟩)
    [[1]] [[2]] rfl).1,
 (unfitted_state_error (SnapshotTransformer.init ⟨true, some ScalingMode.standard, false⟩)
    [[1]] [[2]] rfl).2⟩

/-- C8: a failed `fit` is atomic: the step returns the transformer state
exactly as it was before the call (previously fitted parameters are never
overwritten with partial values). -/
theorem fit_atomic (sq : ℚ → ℚ) (st st2 : SnapshotTransformer) (S : Mat) (e : TError)
    (h : st.fitStep sq S = (st2, some e)) : st2 = st := by
  unfold SnapshotTransformer.fitStep at h
  cases hf : st.fit sq S with
  | ok st3 => rw [hf] at h; simp at h
  | error e2 => rw [hf] at h; exact (Prod.mk.injEq _ _ _ _ ▸ h).1.symm

theorem fit_atomic_witness :
    (SnapshotTransformer.init ⟨false, some ScalingMode.maxabs, false⟩).fitStep id
        [[1], [2, 3]] =
      (SnapshotTransformer.init ⟨false, some ScalingMode.maxabs, false⟩, some TError.shape) ∧
    SnapshotTransformer.init ⟨false, some ScalingMode.maxabs, false⟩ =
      SnapshotTransformer.init ⟨false, some ScalingMode.maxabs, false⟩ :=
⟨rfl,
 fit_atomic id (SnapshotTransformer.init ⟨false, some ScalingMode.maxabs, false⟩)
   (SnapshotTransformer.init ⟨false, some ScalingMode.maxabs, false⟩)
   [[1], [2, 3]] TError.shape rfl⟩

/-- C4 counterexample: with `center = true` combined with `minmax` scaling,
the column-wise mean of the transformed fitting data is not the zero
vector: fitting `[[0, 1, 2]]` and transforming it yields `[[0, 1/2, 1]]`,
whose row mean is `1/2`. -/
theorem centering_minmax_cex :
    (SnapshotTransformer.fit id
        (SnapshotTransformer.init ⟨true, some (ScalingMode.minmax 0 1), false⟩)
        [[0, 1, 2]]).bind (fun st => st.transform [[0, 1, 2]]) =
      Except.ok [[0, 1 / 2, 1]] ∧
    List.map meanOf [[0, 1 / 2, 1]] ≠ List.replicate ([[0, 1, 2]] : Mat).length 0 := by
  exact ⟨by with_unfolding_all rfl, by with_unfolding_all decide⟩

/-- C10 counterexample: with `gamma = 1` the lifting maps are not mutual
inverses even on states with nonzero density: the pressure computed by
`lift` is identically zero and `unlift` divides it by `gamma - 1 = 0`, so
the energy component is lost. -/
theorem lift_unlift_cex : unlift (lift [1, 0, 1] 1) 1 ≠ [1, 0, 1] := by
  with_unfolding_all decide

/-! ### Lemmas about the error-propagating map -/

lemma mapE_ok_iff (f : α → Except TError β) :
    ∀ (l : List α) (ys : List β), mapE f l = Except.ok ys ↔
      List.Forall₂ (fun a b => f a = Except.ok b) l ys := by
  intro l
  induction l with
  | nil =>
      intro ys
      cases ys with
      | nil => simp [mapE]
      | cons y ys => simp [mapE]
  | cons a l ih =>
      intro ys
      constructor
      · intro h
        cases hfa : f a with
        | error e => simp [mapE, hfa, Bind.bind, Except.bind] at h
        | ok b =>
            cases hml : mapE f l with
            | error e => simp [mapE, hfa, hml, Bind.bind, Except.bind] at h
            | ok bs =>
                simp [mapE, hfa, hml, Bind.bind, Except.bind] at h
                subst h
                exact List.Forall₂.cons hfa ((ih bs).1 hml)
      · intro h
        cases h with
        | cons hab htl =>
            rename_i b bs
            simp [mapE, hab, Bind.bind, Except.bind, (ih bs).2 htl]

lemma mapE_ok_length (f : α → Except TError β) (l : List α) (ys : List β)
    (h : mapE f l = Except.ok ys) : ys.length = l.length :=
(List.Forall₂.length_eq ((mapE_ok_iff f l ys).1 h)).symm

/-! ### Nonzero scale parameters from successful parameter computation -/

lemma varOf_nonneg (l : List ℚ) : 0 ≤ varOf l := by
  unfold varOf meanOf
  apply div_nonneg
  · exact List.sum_nonneg (by
      intro x hx
      obtain ⟨y, _, rfl⟩ := List.mem_map.1 hx
      positivity)
  · positivity

lemma modeParams_s1_ne (sq : ℚ → ℚ) (hsq : ∀ v, 0 < v → sq v ≠ 0)
    (mode : ScalingMode) (l : List ℚ) (p : ℚ × ℚ)
    (h : modeParams sq mode l = Except.ok p) : p.1 ≠ 0 := by
  cases mode with
  | standard =>
      by_cases hv : varOf l = 0
      · simp [modeParams, hv] at h
      · simp [modeParams, hv] at h
        have hpos : 0 < varOf l := lt_of_le_of_ne (varOf_nonneg l) (Ne.symm hv)
        rw [← h]
        exact hsq _ hpos
  | minmax a b =>
      by_cases hc : a < b ∧ listMin l < listMax l
      · simp [modeParams, hc] at h
        have hpos : 0 < (listMax l - listMin l) / (b - a) :=
          div_pos (sub_pos.2 hc.2) (sub_pos.2 hc.1)
        subst h
        exact ne_of_gt hpos
      · simp [modeParams, hc] at h
  | maxabs =>
      by_cases hm : maxAbs l = 0
      · simp [modeParams, hm] at h
      · simp [modeParams, hm] at h
        subst h
        exact hm
  | maxabssym =>
      by_cases hm : maxAbs l = 0
      · simp [modeParams, hm] at h
      · simp [modeParams, hm] at h
        subst h
        exact hm

/-! ### Inversion of the scale primitive and of fit -/

lemma scaleOp_ok_inv (sq : ℚ → ℚ) (mode : ScalingMode) (byrow : Bool) (S : Mat)
    (pr : Mat × ScaleParams) (h : scaleOp sq mode byrow S = Except.ok pr) :
    pr.1 = applyScale pr.2 S ∧
    ((byrow = false ∧ ∃ s1 s2, pr.2 = ScaleParams.globalp s1 s2 ∧
        modeParams sq mode (entries S) = Except.ok (s1, s2)) ∨
     (byrow = true ∧ ∃ ps, pr.2 = ScaleParams.rowp ps ∧
        mapE (modeParams sq mode) S = Except.ok ps)) := by
  cases byrow with
  | false =>
      cases hm : modeParams sq mode (entries S) with
      | error e => simp [scaleOp, hm, Bind.bind, Except.bind] at h
      | ok p =>
          simp [scaleOp, hm, Bind.bind, Except.bind] at h
          subst h
          exact ⟨rfl, Or.inl ⟨rfl, p.1, p.2, rfl, rfl⟩⟩
  | true =>
      cases hm : mapE (modeParams sq mode) S with
      | error e => simp [scaleOp, hm, Bind.bind, Except.bind] at h
      | ok ps =>
          simp [scaleOp, hm, Bind.bind, Except.bind] at h
          subst h
          exact ⟨rfl, Or.inr ⟨rfl, ps, rfl, rfl⟩⟩

/-! ### Inverse lemmas for the scale step -/

lemma map_scale_unscale (r : List ℚ) (s1 s2 : ℚ) (h : s1 ≠ 0) :
    (r.map (fun x => (x - s2) / s1)).map (fun x => x * s1 + s2) = r := by
  have hx : ∀ x : ℚ, (x - s2) / s1 * s1 + s2 = x := by
    intro x
    rw [div_mul_cancel₀ _ h, sub_add_cancel]
  simp [List.map_map, Function.comp_def, hx]

lemma unscale_applyScale_global (S : Mat) (s1 s2 : ℚ) (h : s1 ≠ 0) :
    unscale (ScaleParams.globalp s1 s2) (applyScale (ScaleParams.globalp s1 s2) S) = S := by
  induction S with
  | nil => rfl
  | cons r rs ih =>
      simp only [applyScale, unscale, List.map_cons] at ih ⊢
      rw [map_scale_unscale r s1 s2 h]
      exact congrArg (r :: ·) ih

lemma unscale_applyScale_rowp : ∀ (S : Mat) (ps : List (ℚ × ℚ)),
    S.length ≤ ps.length → (∀ p ∈ ps, p.1 ≠ 0) →
    unscale (ScaleParams.rowp ps) (applyScale (ScaleParams.rowp ps) S) = S := by
  intro S
  induction S with
  | nil => intro ps _ _; rfl
  | cons r rs ih =>
      intro ps hlen hnz
      cases ps with
      | nil => simp at hlen
      | cons p ps2 =>
          simp only [applyScale, unscale, List.zipWith_cons_cons]
          rw [map_scale_unscale r p.1 p.2 (hnz p (List.mem_cons_self p ps2))]
          exact congrArg (r :: ·)
            (ih ps2 (by simpa using hlen) (fun q hq => hnz q (List.mem_cons_of_mem p hq)))

/-- Scale parameters usable on a matrix with `n` rows: nonzero divisors,
and per-row parameter lists covering all rows. -/
def GoodParams (n : Nat) : ScaleParams → Prop
| ScaleParams.globalp s1 _ => s1 ≠ 0
| ScaleParams.rowp ps => n ≤ ps.length ∧ ∀ p ∈ ps, p.1 ≠ 0

lemma forall₂_mem_right {R : α → β → Prop} :
    ∀ {l : List α} {ys : List β}, List.Forall₂ R l ys → ∀ b ∈ ys, ∃ a ∈ l, R a b := by
  intro l ys h
  induction h with
  | nil => intro b hb; simp at hb
  | cons hab htl ih =>
      intro b hb
      rcases List.mem_cons.1 hb with hb | hb
      · subst hb
        exact ⟨_, List.mem_cons_self _ _, hab⟩
      · obtain ⟨a, ha, hR⟩ := ih b hb
        exact ⟨a, List.mem_cons_of_mem _ ha, hR⟩

lemma scaleOp_good (sq : ℚ → ℚ) (hsq : ∀ v, 0 < v → sq v ≠ 0)
    (mode : ScalingMode) (byrow : Bool) (S : Mat) (pr : Mat × ScaleParams)
    (h : scaleOp sq mode byrow S = Except.ok pr) : GoodParams S.length pr.2 := by
  rcases (scaleOp_ok_inv sq mode byrow S pr h).2 with ⟨_, s1, s2, hp, hm⟩ | ⟨_, ps, hp, hm⟩
  · rw [hp]
    exact modeParams_s1_ne sq hsq mode (entries S) (s1, s2) hm
  · rw [hp]
    have hfa := (mapE_ok_iff (modeParams sq mode) S ps).1 hm
    refine ⟨le_of_eq (List.Forall₂.length_eq hfa), ?_⟩
    intro p hpmem
    obtain ⟨row, _, hrow⟩ := forall₂_mem_right hfa p hpmem
    exact modeParams_s1_ne sq hsq mode row p hrow

/-! ### Inversion of fit -/

instance : Inhabited ScaleParams := ⟨ScaleParams.globalp 1 0⟩

lemma fit_ok_inv (sq : ℚ → ℚ) (st0 st : SnapshotTransformer) (S : Mat)
    (h : SnapshotTransformer.fit sq st0 S = Except.ok st) :
    st.cfg = st0.cfg ∧ st.fitted = true ∧ st.n = S.length ∧
    st.reference = (if st0.cfg.center = true then some (S.map meanOf) else none) ∧
    (st.scaleParams = none ∨
     ∃ mode pr, st0.cfg.scaling = some mode ∧ st.scaleParams = some pr.2 ∧
       scaleOp sq mode st0.cfg.byrow
         (if st0.cfg.center = true then subRef S (S.map meanOf) else S) = Except.ok pr) := by
  by_cases hrect : isRect S = false
  · simp [SnapshotTransformer.fit, hrect] at h
  · cases hs : st0.cfg.scaling with
    | none =>
        simp [SnapshotTransformer.fit, hrect, hs] at h
        subst h
        simp
    | some mode =>
        simp [SnapshotTransformer.fit, hrect, hs] at h
        rcases hop : scaleOp sq mode st0.cfg.byrow
            (if st0.cfg.center = true then subRef S (S.map meanOf) else S) with e | pr
        · rw [hop] at h
          simp at h
        · rw [hop] at h
          simp at h
          subst h
          exact ⟨rfl, rfl, rfl, rfl, Or.inr ⟨mode, pr, rfl, rfl, hop⟩⟩

/-! ### Evaluating transform and inverse transform on fitted states -/

lemma applyScale_global_length (s1 s2 : ℚ) (S : Mat) :
    (applyScale (ScaleParams.globalp s1 s2) S).length = S.length := by
  simp [applyScale]

lemma applyScale_rowp_length (ps : List (ℚ × ℚ)) (S : Mat) :
    (applyScale (ScaleParams.rowp ps) S).length = min S.length ps.length := by
  simp [applyScale]

lemma transform_eq_of_fitted (st : SnapshotTransformer) (S : Mat)
    (hf : st.fitted = true) (hn : S.length = st.n) :
    st.transform S = Except.ok
      (match st.scaleParams with
       | none => (match st.reference with | none => S | some ref => subRef S ref)
       | some ps =>
           applyScale ps (match st.reference with | none => S | some ref => subRef S ref)) := by
  simp [SnapshotTransformer.transform, hf, hn]

lemma inverseTransform_eq (st : SnapshotTransformer) (Q : Mat)
    (hf : st.fitted = true) (hqn : Q.length = st.n) :
    st.inverseTransform Q = Except.ok
      (match st.reference with
       | none => (match st.scaleParams with | none => Q | some ps => unscale ps Q)
       | some ref =>
           unshift (match st.scaleParams with | none => Q | some ps => unscale ps Q) ref) := by
  simp [SnapshotTransformer.inverseTransform, hf, hqn]

lemma roundtrip_core (st : SnapshotTransformer) (S : Mat)
    (hf : st.fitted = true) (hn : S.length = st.n)
    (href : ∀ ref, st.reference = some ref → st.n ≤ ref.length)
    (hps : ∀ ps, st.scaleParams = some ps → GoodParams st.n ps) :
    (st.transform S).bind st.inverseTransform = Except.ok S := by
  rcases hr : st.reference with _ | ref
  · rcases hp : st.scaleParams with _ | (⟨s1, s2⟩ | pl)
    · rw [transform_eq_of_fitted st S hf hn, hr, hp]
      show st.inverseTransform S = Except.ok S
      rw [inverseTransform_eq st S hf hn, hr, hp]
    · have hs1 : s1 ≠ 0 := hps _ hp
      have hq2len : (applyScale (ScaleParams.globalp s1 s2) S).length = st.n := by
        rw [applyScale_global_length]; exact hn
      rw [transform_eq_of_fitted st S hf hn, hr, hp]
      show st.inverseTransform (applyScale (ScaleParams.globalp s1 s2) S) = Except.ok S
      rw [inverseTransform_eq st _ hf hq2len, hr, hp]
      show Except.ok
          (unscale (ScaleParams.globalp s1 s2) (applyScale (ScaleParams.globalp s1 s2) S)) =
        Except.ok S
      rw [unscale_applyScale_global S s1 s2 hs1]
    · obtain ⟨hle, hnz⟩ := hps _ hp
      have hq2len : (applyScale (ScaleParams.rowp pl) S).length = st.n := by
        rw [applyScale_rowp_length, hn]
        exact Nat.min_eq_left hle
      rw [transform_eq_of_fitted st S hf hn, hr, hp]
      show st.inverseTransform (applyScale (ScaleParams.rowp pl) S) = Except.ok S
      rw [inverseTransform_eq st _ hf hq2len, hr, hp]
      show Except.ok
          (unscale (ScaleParams.rowp pl) (applyScale (ScaleParams.rowp pl) S)) = Except.ok S
      rw [unscale_applyScale_rowp S pl (hn ▸ hle) hnz]
  · have hrlen : st.n ≤ ref.length := href ref hr
    have hq1len : (subRef S ref).length = st.n := by
      rw [subRef_length, hn]
      exact Nat.min_eq_left hrlen
    have hSle : S.length ≤ ref.length := by rw [hn]; exact hrlen
    rcases hp : st.scaleParams with _ | (⟨s1, s2⟩ | pl)
    · rw [transform_eq_of_fitted st S hf hn, hr, hp]
      show st.inverseTransform (subRef S ref) = Except.ok S
      rw [inverseTransform_eq st _ hf hq1len, hr, hp]
      show Except.ok (unshift (subRef S ref) ref) = Except.ok S
      rw [unshift_subRef S ref hSle]
    · have hs1 : s1 ≠ 0 := hps _ hp
      have hq2len : (applyScale (ScaleParams.globalp s1 s2) (subRef S ref)).length = st.n := by
        rw [applyScale_global_length]; exact hq1len
      rw [transform_eq_of_fitted st S hf hn, hr, hp]
      show st.inverseTransform (applyScale (ScaleParams.globalp s1 s2) (subRef S ref)) =
        Except.ok S
      rw [inverseTransform_eq st _ hf hq2len, hr, hp]
      show Except.ok
          (unshift
            (unscale (ScaleParams.globalp s1 s2)
              (applyScale (ScaleParams.globalp s1 s2) (subRef S ref))) ref) = Except.ok S
      rw [unscale_applyScale_global (subRef S ref) s1 s2 hs1, unshift_subRef S ref hSle]
    · obtain ⟨hle, hnz⟩ := hps _ hp
      have hq1le : (subRef S ref).length ≤ pl.length := by rw [hq1len]; exact hle
      have hq2len : (applyScale (ScaleParams.rowp pl) (subRef S ref)).length = st.n := by
        rw [applyScale_rowp_length, hq1len]
        exact Nat.min_eq_left hle
      rw [transform_eq_of_fitted st S hf hn, hr, hp]
      show st.inverseTransform (applyScale (ScaleParams.rowp pl) (subRef S ref)) = Except.ok S
      rw [inverseTransform_eq st _ hf hq2len, hr, hp]
      show Except.ok
          (unshift
            (unscale (ScaleParams.rowp pl) (applyScale (ScaleParams.rowp pl) (subRef S ref)))
            ref) = Except.ok S
      rw [unscale_applyScale_rowp (subRef S ref) pl hq1le hnz, unshift_subRef S ref hSle]

/-- C1: for every valid 2-D snapshot matrix `S` and every transformer
configuration (any combination of center, scaling mode and byrow), after a
successful `fit(S)` the composition
`inverse_transform(transform(S))` returns `S` exactly (the model computes
in exact rational arithmetic, so equality holds with no rounding at all,
which is within any floating tolerance); `transform` applies shift then
scale, `inverse_transform` applies unscale then unshift.  `sq` is the
abstract square root used by the `standard` mode; only its positivity on
positive variances is used. -/
theorem roundtrip_inverse_transform (sq : ℚ → ℚ)
    (hsq : ∀ v, 0 < v → sq v ≠ 0)
    (st0 st : SnapshotTransformer) (S : Mat)
    (hfit : SnapshotTransformer.fit sq st0 S = Except.ok st) :
    (st.transform S).bind st.inverseTransform = Except.ok S := by
  obtain ⟨hcfg, hf, hnn, hrf, hsp⟩ := fit_ok_inv sq st0 st S hfit
  apply roundtrip_core st S hf hnn.symm
  · intro ref hr
    rw [hr] at hrf
    by_cases hc : st0.cfg.center = true
    · rw [if_pos hc] at hrf
      have hre : ref = S.map meanOf := Option.some.injEq _ _ ▸ hrf
      rw [hre, hnn]
      simp
    · rw [if_neg hc] at hrf
      simp at hrf
  · intro ps hp
    rcases hsp with hnone | ⟨mode, pr, hsmode, hpr, hop⟩
    · rw [hp] at hnone
      simp at hnone
    · rw [hp] at hpr
      have hpe : ps = pr.2 := Option.some.injEq _ _ ▸ hpr
      have hgood := scaleOp_good sq hsq mode st0.cfg.byrow _ pr hop
      have hclen : ((if st0.cfg.center = true then subRef S (S.map meanOf) else S) : Mat).length =
          S.length := by
        by_cases hc : st0.cfg.center = true
        · rw [if_pos hc, subRef_length]
          simp
        · rw [if_neg hc]
      rw [hclen] at hgood
      rw [hpe, hnn]
      exact hgood

theorem roundtrip_inverse_transform_witness :
    SnapshotTransformer.fit id
        (SnapshotTransformer.init ⟨true, some ScalingMode.standard, false⟩) [[1, 2, 3]] =
      Except.ok ⟨⟨true, some ScalingMode.standard, false⟩, true, 1, some [2],
        some (ScaleParams.globalp (2 / 3) 0)⟩ ∧
    ((⟨⟨true, some ScalingMode.standard, false⟩, true, 1, some [2],
        some (ScaleParams.globalp (2 / 3) 0)⟩ : SnapshotTransformer).transform
          [[1, 2, 3]]).bind
        (SnapshotTransformer.inverseTransform
          ⟨⟨true, some ScalingMode.standard, false⟩, true, 1, some [2],
            some (ScaleParams.globalp (2 / 3) 0)⟩) =
      Except.ok [[1, 2, 3]] :=
⟨by with_unfolding_all rfl,
 roundtrip_inverse_transform id (fun v hv => ne_of_gt hv)
   (SnapshotTransformer.init ⟨true, some ScalingMode.standard, false⟩)
   ⟨⟨true, some ScalingMode.standard, false⟩, true, 1, some [2],
     some (ScaleParams.globalp (2 / 3) 0)⟩
   [[1, 2, 3]] (by with_unfolding_all rfl)⟩

/-- C6: on a fitted transformer whose fit-time matrix had `n` rows, calling
`transform` or `inverse_transform` with a matrix whose row count differs
from `n` raises the shape error. -/
theorem transform_dim_guard (sq : ℚ → ℚ) (st0 st : SnapshotTransformer) (S T : Mat)
    (hfit : SnapshotTransformer.fit sq st0 S = Except.ok st)
    (hT : T.length ≠ S.length) :
    st.transform T = Except.error TError.shape ∧
    st.inverseTransform T = Except.error TError.shape := by
  obtain ⟨_, hf, hnn, _, _⟩ := fit_ok_inv sq st0 st S hfit
  constructor
  · simp [SnapshotTransformer.transform, hf, hnn, hT]
  · simp [SnapshotTransformer.inverseTransform, hf, hnn, hT]

theorem transform_dim_guard_witness :
    SnapshotTransformer.fit id (SnapshotTransformer.init ⟨false, none, false⟩) [[1, 2]] =
      Except.ok ⟨⟨false, none, false⟩, true, 1, none, none⟩ ∧
    ([[1], [2]] : Mat).length ≠ ([[1, 2]] : Mat).length ∧
    (⟨⟨false, none, false⟩, true, 1, none, none⟩ : SnapshotTransformer).transform [[1], [2]] =
      Except.error TError.shape ∧
    (⟨⟨false, none, false⟩, true, 1, none, none⟩ : SnapshotTransformer).inverseTransform
        [[1], [2]] = Except.error TError.shape :=
⟨by with_unfolding_all rfl, by decide,
 (transform_dim_guard id (SnapshotTransformer.init ⟨false, none, false⟩)
    ⟨⟨false, none, false⟩, true, 1, none, none⟩ [[1, 2]] [[1], [2]]
    (by with_unfolding_all rfl) (by decide)).1,
 (transform_dim_guard id (SnapshotTransformer.init ⟨false, none, false⟩)
    ⟨⟨false, none, false⟩, true, 1, none, none⟩ [[1, 2]] [[1], [2]]
    (by with_unfolding_all rfl) (by decide)).2⟩

/-! ### Min and max under monotone maps -/

lemma foldl_max_map (f : ℚ → ℚ) (hf : Monotone f) :
    ∀ (xs : List ℚ) (x : ℚ), (xs.map f).foldl max (f x) = f (xs.foldl max x) := by
  intro xs
  induction xs with
  | nil => intro x; rfl
  | cons y ys ih =>
      intro x
      simp only [List.map_cons, List.foldl_cons]
      rw [← hf.map_max]
      exact ih (max x y)

lemma foldl_min_map (f : ℚ → ℚ) (hf : Monotone f) :
    ∀ (xs : List ℚ) (x : ℚ), (xs.map f).foldl min (f x) = f (xs.foldl min x) := by
  intro xs
  induction xs with
  | nil => intro x; rfl
  | cons y ys ih =>
      intro x
      simp only [List.map_cons, List.foldl_cons]
      rw [← hf.map_min]
      exact ih (min x y)

lemma listMax_map (f : ℚ → ℚ) (hf : Monotone f) (l : List ℚ) (hne : l ≠ []) :
    listMax (l.map f) = f (listMax l) := by
  cases l with
  | nil => exact absurd rfl hne
  | cons x xs =>
      simp only [List.map_cons, listMax]
      exact foldl_max_map f hf xs x

lemma listMin_map (f : ℚ → ℚ) (hf : Monotone f) (l : List ℚ) (hne : l ≠ []) :
    listMin (l.map f) = f (listMin l) := by
  cases l with
  | nil => exact absurd rfl hne
  | cons x xs =>
      simp only [List.map_cons, listMin]
      exact foldl_min_map f hf xs x

lemma entries_applyScale_global (s1 s2 : ℚ) (S : Mat) :
    entries (applyScale (ScaleParams.globalp s1 s2) S) =
      (entries S).map (fun x => (x - s2) / s1) := by
  unfold entries applyScale
  rw [← List.map_flatten]

/-- C3: the scale primitive in `minmax` mode with target interval `(a, b)`,
on data whose entries are not all equal, computes
`scale1 = (max - min)/(b - a)` and `scale2 = min - a*scale1`, and the
minimum and maximum entries of the transformed fitting data are exactly
`a` and `b`. -/
theorem scale_minmax_bounds (sq : ℚ → ℚ) (a b : ℚ) (S : Mat)
    (hab : a < b) (hS : listMin (entries S) < listMax (entries S)) :
    ∃ Q, scaleOp sq (ScalingMode.minmax a b) false S =
        Except.ok (Q, ScaleParams.globalp
          ((listMax (entries S) - listMin (entries S)) / (b - a))
          (listMin (entries S) -
            a * ((listMax (entries S) - listMin (entries S)) / (b - a)))) ∧
      listMin (entries Q) = a ∧ listMax (entries Q) = b := by
  have hMm : listMax (entries S) - listMin (entries S) ≠ 0 := ne_of_gt (sub_pos.2 hS)
  have hba : b - a ≠ 0 := ne_of_gt (sub_pos.2 hab)
  have hs1pos : 0 < (listMax (entries S) - listMin (entries S)) / (b - a) :=
    div_pos (sub_pos.2 hS) (sub_pos.2 hab)
  have hs1ne : (listMax (entries S) - listMin (entries S)) / (b - a) ≠ 0 := ne_of_gt hs1pos
  have hmp : modeParams sq (ScalingMode.minmax a b) (entries S) =
      Except.ok ((listMax (entries S) - listMin (entries S)) / (b - a),
        listMin (entries S) -
          a * ((listMax (entries S) - listMin (entries S)) / (b - a))) := by
    simp [modeParams, hab, hS]
  have hne : entries S ≠ [] := by
    intro hcon
    rw [hcon] at hS
    exact lt_irrefl _ hS
  have hmono : Monotone (fun x : ℚ =>
      (x - (listMin (entries S) -
        a * ((listMax (entries S) - listMin (entries S)) / (b - a)))) /
      ((listMax (entries S) - listMin (entries S)) / (b - a))) := by
    intro x y hxy
    exact div_le_div_of_nonneg_right (sub_le_sub_right hxy _) hs1pos.le
  refine ⟨applyScale (ScaleParams.globalp
      ((listMax (entries S) - listMin (entries S)) / (b - a))
      (listMin (entries S) -
        a * ((listMax (entries S) - listMin (entries S)) / (b - a)))) S, ?_, ?_, ?_⟩
  · simp [scaleOp, hmp, Bind.bind, Except.bind]
  · rw [entries_applyScale_global, listMin_map _ hmono _ hne]
    rw [sub_sub_cancel]
    exact mul_div_cancel_right₀ a hs1ne
  · rw [entries_applyScale_global, listMax_map _ hmono _ hne]
    rw [div_eq_iff hs1ne]
    field_simp
    ring

theorem scale_minmax_bounds_witness :
    (0 : ℚ) < 1 ∧ listMin (entries [[0, 1]]) < listMax (entries [[0, 1]]) ∧
    (∃ Q, scaleOp id (ScalingMode.minmax 0 1) false [[0, 1]] =
        Except.ok (Q, ScaleParams.globalp
          ((listMax (entries [[0, 1]]) - listMin (entries [[0, 1]])) / (1 - 0))
          (listMin (entries [[0, 1]]) -
            0 * ((listMax (entries [[0, 1]]) - listMin (entries [[0, 1]])) / (1 - 0)))) ∧
      listMin (entries Q) = 0 ∧ listMax (entries Q) = 1) :=
⟨by norm_num, by with_unfolding_all decide,
 scale_minmax_bounds id 0 1 [[0, 1]] (by norm_num) (by with_unfolding_all decide)⟩

/-! ### Centered data has zero means -/

lemma sum_map_sub (r : List ℚ) (c : ℚ) :
    (r.map (fun x => x - c)).sum = r.sum - r.length * c := by
  induction r with
  | nil => simp
  | cons x xs ih =>
      simp only [List.map_cons, List.sum_cons, List.length_cons, ih]
      push_cast
      ring

lemma row_centered_sum (r : List ℚ) : (r.map (fun x => x - meanOf r)).sum = 0 := by
  cases r with
  | nil => rfl
  | cons x xs =>
      rw [sum_map_sub]
      unfold meanOf
      rw [mul_div_cancel₀]
      · ring
      · simp only [List.length_cons]
        positivity

lemma meanOf_zero_of_sum (r : List ℚ) (h : r.sum = 0) : meanOf r = 0 := by
  unfold meanOf
  rw [h, zero_div]

lemma sum_map_div (r : List ℚ) (c : ℚ) : (r.map (fun x => x / c)).sum = r.sum / c := by
  induction r with
  | nil => simp
  | cons x xs ih =>
      simp only [List.map_cons, List.sum_cons, ih]
      rw [add_div]

lemma meanOf_scaled_zero (r : List ℚ) (s1 s2 : ℚ) (hs2 : s2 = 0) (hsum : r.sum = 0) :
    meanOf (r.map (fun x => (x - s2) / s1)) = 0 := by
  subst hs2
  unfold meanOf
  rw [List.length_map]
  have hz : (r.map (fun x => (x - 0) / s1)).sum = 0 := by
    simp only [sub_zero]
    rw [sum_map_div, hsum, zero_div]
  rw [hz, zero_div]

lemma centered_eq (S : Mat) :
    subRef S (S.map meanOf) = S.map (fun r => r.map (fun x => x - meanOf r)) := by
  unfold subRef
  rw [List.zipWith_map_right, List.zipWith_same]

lemma centered_row_sum (S : Mat) : ∀ r ∈ subRef S (S.map meanOf), r.sum = 0 := by
  rw [centered_eq]
  intro r hr
  obtain ⟨r0, _, rfl⟩ := List.mem_map.1 hr
  exact row_centered_sum r0

lemma entries_centered_mean (S : Mat) : meanOf (entries (subRef S (S.map meanOf))) = 0 := by
  apply meanOf_zero_of_sum
  unfold entries
  rw [List.sum_flatten]
  apply List.sum_eq_zero
  intro x hx
  obtain ⟨r, hr, rfl⟩ := List.mem_map.1 hx
  exact centered_row_sum S r hr

lemma modeParams_s2_zero (sq : ℚ → ℚ) (mode : ScalingMode) (l : List ℚ) (p : ℚ × ℚ)
    (h : modeParams sq mode l = Except.ok p)
    (hm : ∀ a b, mode ≠ ScalingMode.minmax a b) (hmean : meanOf l = 0) : p.2 = 0 := by
  cases mode with
  | standard =>
      by_cases hv : varOf l = 0
      · simp [modeParams, hv] at h
      · simp [modeParams, hv] at h
        subst h
        exact hmean
  | minmax a b => exact absurd rfl (hm a b)
  | maxabs =>
      by_cases hz : maxAbs l = 0
      · simp [modeParams, hz] at h
      · simp [modeParams, hz] at h
        subst h
        rfl
  | maxabssym =>
      by_cases hz : maxAbs l = 0
      · simp [modeParams, hz] at h
      · simp [modeParams, hz] at h
        subst h
        rfl

lemma map_meanOf_eq_replicate (L : Mat) (h : ∀ r ∈ L, meanOf r = 0) :
    L.map meanOf = List.replicate L.length 0 := by
  induction L with
  | nil => rfl
  | cons r rs ih =>
      simp only [List.map_cons, List.length_cons, List.replicate_succ]
      rw [h r (List.mem_cons_self r rs)]
      exact congrArg (0 :: ·) (ih (fun q hq => h q (List.mem_cons_of_mem r hq)))

lemma rowp_rows_mean_zero (sq : ℚ → ℚ) (mode : ScalingMode)
    (hm : ∀ a b, mode ≠ ScalingMode.minmax a b) (C : Mat) (ps : List (ℚ × ℚ))
    (hfa : List.Forall₂ (fun r p => modeParams sq mode r = Except.ok p) C ps) :
    (∀ r ∈ C, r.sum = 0) →
    ∀ row ∈ applyScale (ScaleParams.rowp ps) C, meanOf row = 0 := by
  induction hfa with
  | nil => intro _ row hrow; simp [applyScale] at hrow
  | @cons r p rs ps2 hab htl ih =>
      intro hsum row hrow
      simp only [applyScale, List.zipWith_cons_cons] at hrow
      rcases List.mem_cons.1 hrow with hrow | hrow
      · subst hrow
        refine meanOf_scaled_zero r p.1 p.2 ?_ (hsum r (List.mem_cons_self r rs))
        exact modeParams_s2_zero sq mode r p hab hm
          (meanOf_zero_of_sum r (hsum r (List.mem_cons_self r rs)))
      · exact ih (fun q hq => hsum q (List.mem_cons_of_mem r hq)) row hrow

/-- C4 (amended): for every transformer with `center = true` whose scaling
mode is not `minmax` (for those modes the stored scale offset is zero —
`minmax` is excluded by the counterexample), the column-wise mean (one
value per row) of `transform(S_train)` on the fitting data is the zero
vector. -/
theorem centering_zero_mean (sq : ℚ → ℚ) (st0 st : SnapshotTransformer) (S Q : Mat)
    (hc : st0.cfg.center = true)
    (hm : ∀ a b, st0.cfg.scaling ≠ some (ScalingMode.minmax a b))
    (hfit : SnapshotTransformer.fit sq st0 S = Except.ok st)
    (htr : st.transform S = Except.ok Q) :
    Q.map meanOf = List.replicate S.length 0 := by
  obtain ⟨hcfg, hf, hnn, hrf, hsp⟩ := fit_ok_inv sq st0 st S hfit
  rw [if_pos hc] at hrf
  rw [transform_eq_of_fitted st S hf hnn.symm, hrf] at htr
  have hclen : (subRef S (S.map meanOf)).length = S.length := by
    rw [subRef_length]
    simp
  rcases hsp with hnone | ⟨mode, pr, hsmode, hpr, hop⟩
  · rw [hnone] at htr
    simp at htr
    subst htr
    rw [map_meanOf_eq_replicate _ (fun r hr =>
      meanOf_zero_of_sum r (centered_row_sum S r hr)), hclen]
  · rw [if_pos hc] at hop
    rw [hpr] at htr
    simp at htr
    subst htr
    have hm2 : ∀ a b, mode ≠ ScalingMode.minmax a b := by
      intro a b hmode
      exact hm a b (by rw [hsmode, hmode])
    rcases (scaleOp_ok_inv sq mode st0.cfg.byrow _ pr hop).2 with
      ⟨_, s1, s2, hp2, hmp⟩ | ⟨_, ps, hp2, hmp⟩
    · rw [hp2]
      have hs2 : s2 = 0 :=
        modeParams_s2_zero sq mode _ (s1, s2) hmp hm2 (entries_centered_mean S)
      have hrows : ∀ row ∈ applyScale (ScaleParams.globalp s1 s2) (subRef S (S.map meanOf)),
          meanOf row = 0 := by
        intro row hrow
        simp only [applyScale] at hrow
        obtain ⟨r, hr, rfl⟩ := List.mem_map.1 hrow
        exact meanOf_scaled_zero r s1 s2 hs2 (centered_row_sum S r hr)
      rw [map_meanOf_eq_replicate _ hrows, applyScale_global_length, hclen]
    · rw [hp2]
      have hfa := (mapE_ok_iff (modeParams sq mode) _ ps).1 hmp
      have hrows := rowp_rows_mean_zero sq mode hm2 _ ps hfa (centered_row_sum S)
      have hlen : ps.length = (subRef S (S.map meanOf)).length :=
        mapE_ok_length (modeParams sq mode) _ ps hmp
      rw [map_meanOf_eq_replicate _ hrows, applyScale_rowp_length, hlen,
        Nat.min_self, hclen]

theorem centering_zero_mean_witness :
    SnapshotTransformer.fit id
        (SnapshotTransformer.init ⟨true, some ScalingMode.maxabs, false⟩) [[1, 3]] =
      Except.ok ⟨⟨true, some ScalingMode.maxabs, false⟩, true, 1, some [2],
        some (ScaleParams.globalp 1 0)⟩ ∧
    (⟨⟨true, some ScalingMode.maxabs, false⟩, true, 1, some [2],
        some (ScaleParams.globalp 1 0)⟩ : SnapshotTransformer).transform [[1, 3]] =
      Except.ok [[-1, 1]] ∧
    ([[-1, 1]] : Mat).map meanOf = List.replicate ([[1, 3]] : Mat).length 0 :=
⟨by with_unfolding_all rfl, by with_unfolding_all rfl,
 centering_zero_mean id (SnapshotTransformer.init ⟨true, some ScalingMode.maxabs, false⟩)
   ⟨⟨true, some ScalingMode.maxabs, false⟩, true, 1, some [2],
     some (ScaleParams.globalp 1 0)⟩
   [[1, 3]] [[-1, 1]] rfl
   (by intro a b h; simp [SnapshotTransformer.init] at h)
   (by with_unfolding_all rfl) (by with_unfolding_all rfl)⟩

/-! ### Splitting into row-blocks and re-stacking -/

lemma splitSizes_length : ∀ (sz : List Nat) (S : Mat), (splitSizes sz S).length = sz.length := by
  intro sz
  induction sz with
  | nil => intro S; rfl
  | cons c cs ih => intro S; simp [splitSizes, ih]

lemma splitSizes_length_eq : ∀ (sz : List Nat) (S : Mat), sz.sum = S.length →
    List.Forall₂ (fun c (b : Mat) => b.length = c) sz (splitSizes sz S) := by
  intro sz
  induction sz with
  | nil => intro S _; exact List.Forall₂.nil
  | cons c cs ih =>
      intro S hsum
      simp only [List.sum_cons] at hsum
      refine List.Forall₂.cons ?_ (ih (S.drop c) ?_)
      · simp only [splitSizes, List.length_take]
        omega
      · simp only [List.length_drop]
        omega

lemma splitSizes_flatten : ∀ (sz : List Nat) (Qs : List Mat),
    List.Forall₂ (fun c (b : Mat) => b.length = c) sz Qs →
    splitSizes sz Qs.flatten = Qs := by
  intro sz Qs h
  induction h with
  | nil => rfl
  | @cons c q cs qs hc htl ih =>
      simp only [List.flatten_cons, splitSizes]
      rw [← hc, List.take_left, List.drop_left, ih]

/-! ### Transform preserves the row count on states produced by fit -/

lemma scaleOp_rowp_length (sq : ℚ → ℚ) (mode : ScalingMode) (byrow : Bool) (S : Mat)
    (pr : Mat × ScaleParams) (ps : List (ℚ × ℚ))
    (h : scaleOp sq mode byrow S = Except.ok pr) (hps : pr.2 = ScaleParams.rowp ps) :
    ps.length = S.length := by
  rcases (scaleOp_ok_inv sq mode byrow S pr h).2 with ⟨_, s1, s2, hp2, _⟩ | ⟨_, ps2, hp2, hmp⟩
  · rw [hp2] at hps
    simp at hps
  · rw [hp2] at hps
    have : ps2 = ps := ScaleParams.rowp.injEq ps2 ps ▸ hps
    subst this
    exact mapE_ok_length (modeParams sq mode) S ps2 hmp

lemma fit_transform_length (sq : ℚ → ℚ) (st0 st : SnapshotTransformer) (S T Q : Mat)
    (hfit : SnapshotTransformer.fit sq st0 S = Except.ok st)
    (htr : st.transform T = Except.ok Q) : Q.length = T.length := by
  obtain ⟨hcfg, hf, hnn, hrf, hsp⟩ := fit_ok_inv sq st0 st S hfit
  have hdims : T.length = st.n := by
    by_cases hT : T.length ≠ st.n
    · simp [SnapshotTransformer.transform, hf, hT] at htr
    · push_neg at hT
      exact hT
  have hTS : T.length = S.length := by rw [hdims, hnn]
  rw [transform_eq_of_fitted st T hf hdims] at htr
  have hq1len : (match st.reference with
      | none => T
      | some ref => subRef T ref).length = T.length := by
    by_cases hc : st0.cfg.center = true
    · rw [hrf, if_pos hc]
      show (subRef T (S.map meanOf)).length = T.length
      rw [subRef_length, List.length_map, ← hTS]
      simp
    · rw [hrf, if_neg hc]
  rcases hsp with hnone | ⟨mode, pr, hsmode, hpr, hop⟩
  · rw [hnone] at htr
    simp at htr
    subst htr
    exact hq1len
  · rw [hpr] at htr
    simp at htr
    subst htr
    have hclen : ((if st0.cfg.center = true then subRef S (S.map meanOf) else S) : Mat).length =
        S.length := by
      by_cases hc : st0.cfg.center = true
      · rw [if_pos hc, subRef_length]
        simp
      · rw [if_neg hc]
    rcases hpr2 : pr.2 with ⟨s1, s2⟩ | ps
    · rw [applyScale_global_length]
      exact hq1len
    · rw [applyScale_rowp_length, hq1len]
      have hpl : ps.length = S.length := by
        rw [← hclen]
        exact scaleOp_rowp_length sq mode st0.cfg.byrow _ pr ps hop hpr2
      rw [hpl, ← hTS]
      simp

/-! ### Inversion of the multi-variable fit and transform -/

lemma multiFit_inv (sq : ℚ → ℚ) (mc : MultiConfig) (S : Mat) (mst : STMulti)
    (h : STMulti.fit sq mc S = Except.ok mst) :
    mst.sizes.sum = S.length ∧ mst.sizes.length = mc.cfgs.length ∧
    mapE (fun cb => SnapshotTransformer.fit sq (SnapshotTransformer.init cb.1) cb.2)
      (mc.cfgs.zip (splitSizes mst.sizes S)) = Except.ok mst.blocks := by
  cases hsz : mc.sizes with
  | some sz =>
      by_cases hcond : sz.length = mc.cfgs.length ∧ (sz.all (fun c => 0 < c)) = true ∧
          sz.sum = S.length
      · cases hmE : mapE (fun cb =>
            SnapshotTransformer.fit sq (SnapshotTransformer.init cb.1) cb.2)
            (mc.cfgs.zip (splitSizes sz S)) with
        | error e =>
            simp [STMulti.fit, hsz, hcond, hmE, Bind.bind, Except.bind] at h
        | ok sts =>
            simp [STMulti.fit, hsz, hcond, hmE, Bind.bind, Except.bind] at h
            subst h
            exact ⟨hcond.2.2, hcond.1, hmE⟩
      · simp only [STMulti.fit, hsz] at h
        split at h
        · rename_i hcc
          exact absurd hcc hcond
        · exact Except.noConfusion h
  | none =>
      by_cases hcond : mc.cfgs.length ≠ 0 ∧ S.length % mc.cfgs.length = 0
      · cases hmE : mapE (fun cb =>
            SnapshotTransformer.fit sq (SnapshotTransformer.init cb.1) cb.2)
            (mc.cfgs.zip
              (splitSizes (List.replicate mc.cfgs.length (S.length / mc.cfgs.length)) S)) with
        | error e =>
            simp [STMulti.fit, hsz, hcond, hmE, Bind.bind, Except.bind] at h
        | ok sts =>
            simp [STMulti.fit, hsz, hcond, hmE, Bind.bind, Except.bind] at h
            subst h
            refine ⟨?_, by simp, hmE⟩
            simp only [List.sum_replicate, smul_eq_mul]
            exact Nat.mul_div_cancel' (Nat.dvd_of_mod_eq_zero hcond.2)
      · simp only [STMulti.fit, hsz] at h
        split at h
        · rename_i hcc
          exact absurd hcc hcond
        · exact Except.noConfusion h

lemma multiTransform_inv (mst : STMulti) (S Q : Mat)
    (h : STMulti.transform mst S = Except.ok Q) :
    S.length = mst.sizes.sum ∧
    ∃ Qs, mapE (fun tb => SnapshotTransformer.transform tb.1 tb.2)
        (mst.blocks.zip (splitSizes mst.sizes S)) = Except.ok Qs ∧ Q = Qs.flatten := by
  by_cases hlen : S.length ≠ mst.sizes.sum
  · simp [STMulti.transform, hlen] at h
  · push_neg at hlen
    cases hmE : mapE (fun tb => SnapshotTransformer.transform tb.1 tb.2)
        (mst.blocks.zip (splitSizes mst.sizes S)) with
    | error e =>
        simp [STMulti.transform, hlen, hmE, Bind.bind, Except.bind] at h
    | ok qs =>
        simp [STMulti.transform, hlen, hmE, Bind.bind, Except.bind] at h
        exact ⟨hlen, qs, rfl, h.symm⟩

/-! ### Combining per-block fits and transforms -/

lemma forall₂_compose (sq : ℚ → ℚ) :
    ∀ (cfgs : List STConfig) (bs : List Mat) (sts : List SnapshotTransformer) (qs : List Mat),
    List.Forall₂ (fun cb t =>
        SnapshotTransformer.fit sq (SnapshotTransformer.init cb.1) cb.2 = Except.ok t)
      (cfgs.zip bs) sts →
    List.Forall₂ (fun tb q => SnapshotTransformer.transform tb.1 tb.2 = Except.ok q)
      (sts.zip bs) qs →
    List.Forall₂ (fun cb q =>
        (SnapshotTransformer.fit sq (SnapshotTransformer.init cb.1) cb.2).bind
          (fun t => t.transform cb.2) = Except.ok q)
      (cfgs.zip bs) qs := by
  intro cfgs
  induction cfgs with
  | nil =>
      intro bs sts qs h1 h2
      cases h1
      cases h2
      exact List.Forall₂.nil
  | cons c cfgs ih =>
      intro bs sts qs h1 h2
      cases bs with
      | nil =>
          cases h1
          cases h2
          exact List.Forall₂.nil
      | cons b bs =>
          simp only [List.zip_cons_cons] at h1
          cases h1 with
          | cons hfit htl1 =>
              rename_i t sts2
              simp only [List.zip_cons_cons] at h2
              cases h2 with
              | cons htr htl2 =>
                  rename_i q qs2
                  refine List.Forall₂.cons ?_ (ih bs sts2 qs2 htl1 htl2)
                  rw [hfit]
                  exact htr

lemma blocks_qs_length (sq : ℚ → ℚ) :
    ∀ (cfgs : List STConfig) (bs : List Mat) (sts : List SnapshotTransformer) (qs : List Mat),
    List.Forall₂ (fun cb t =>
        SnapshotTransformer.fit sq (SnapshotTransformer.init cb.1) cb.2 = Except.ok t)
      (cfgs.zip bs) sts →
    List.Forall₂ (fun tb q => SnapshotTransformer.transform tb.1 tb.2 = Except.ok q)
      (sts.zip bs) qs →
    cfgs.length = bs.length →
    List.Forall₂ (fun (b q : Mat) => q.length = b.length) bs qs := by
  intro cfgs
  induction cfgs with
  | nil =>
      intro bs sts qs h1 h2 hlen
      cases bs with
      | nil =>
          cases h1
          cases h2
          exact List.Forall₂.nil
      | cons b bs => simp at hlen
  | cons c cfgs ih =>
      intro bs sts qs h1 h2 hlen
      cases bs with
      | nil => simp at hlen
      | cons b bs =>
          simp only [List.zip_cons_cons] at h1
          cases h1 with
          | cons hfit htl1 =>
              rename_i t sts2
              simp only [List.zip_cons_cons] at h2
              cases h2 with
              | cons htr htl2 =>
                  rename_i q qs2
                  refine List.Forall₂.cons
                    (fit_transform_length sq (SnapshotTransformer.init c) t b b q hfit htr)
                    (ih bs sts2 qs2 htl1 htl2 (by simpa using hlen))

lemma forall₂_trans_len :
    ∀ (sz : List Nat) (bs qs : List Mat),
    List.Forall₂ (fun c (b : Mat) => b.length = c) sz bs →
    List.Forall₂ (fun (b q : Mat) => q.length = b.length) bs qs →
    List.Forall₂ (fun c (q : Mat) => q.length = c) sz qs := by
  intro sz bs qs h1
  induction h1 generalizing qs with
  | nil =>
      intro h2
      cases h2
      exact List.Forall₂.nil
  | @cons c b cs bs2 hc htl ih =>
      intro h2
      cases h2 with
      | cons hq htl2 =>
          exact List.Forall₂.cons (by rw [hq, hc]) (ih _ htl2)

/-- C7: for every stacked matrix and every per-block configuration,
fitting and transforming with the multi-variable transformer produces a
matrix whose contiguous row-blocks are exactly the outputs of
independently fitting and transforming one equivalently configured
single-variable transformer on each block; no statistic of one block
influences another block's output, since each block's output depends only
on that block's data and configuration. -/
theorem multi_blockwise (sq : ℚ → ℚ) (mc : MultiConfig) (S Q : Mat) (mst : STMulti)
    (hfit : STMulti.fit sq mc S = Except.ok mst)
    (htr : STMulti.transform mst S = Except.ok Q) :
    mapE (fun cb => (SnapshotTransformer.fit sq (SnapshotTransformer.init cb.1) cb.2).bind
        (fun t => t.transform cb.2))
      (mc.cfgs.zip (splitSizes mst.sizes S)) = Except.ok (splitSizes mst.sizes Q) := by
  obtain ⟨hsum, hszlen, hmf⟩ := multiFit_inv sq mc S mst hfit
  obtain ⟨hslen, Qs, hmq, hQ⟩ := multiTransform_inv mst S Q htr
  have hfitF := (mapE_ok_iff _ _ _).1 hmf
  have htrF := (mapE_ok_iff _ _ _).1 hmq
  have hcomp := forall₂_compose sq mc.cfgs (splitSizes mst.sizes S) mst.blocks Qs hfitF htrF
  have hszbs := splitSizes_length_eq mst.sizes S hsum
  have hbslen : mc.cfgs.length = (splitSizes mst.sizes S).length := by
    rw [splitSizes_length, hszlen]
  have hbsqs := blocks_qs_length sq mc.cfgs (splitSizes mst.sizes S) mst.blocks Qs
    hfitF htrF hbslen
  have hszqs := forall₂_trans_len mst.sizes (splitSizes mst.sizes S) Qs hszbs hbsqs
  rw [hQ, splitSizes_flatten mst.sizes Qs hszqs]
  exact (mapE_ok_iff _ _ _).2 hcomp

theorem multi_blockwise_witness :
    STMulti.fit id ⟨[⟨false, none, false⟩, ⟨true, none, false⟩], none⟩ [[1, 2], [3, 4]] =
      Except.ok ⟨[1, 1],
        [⟨⟨false, none, false⟩, true, 1, none, none⟩,
         ⟨⟨true, none, false⟩, true, 1, some [7 / 2], none⟩]⟩ ∧
    STMulti.transform
        ⟨[1, 1],
          [⟨⟨false, none, false⟩, true, 1, none, none⟩,
           ⟨⟨true, none, false⟩, true, 1, some [7 / 2], none⟩]⟩ [[1, 2], [3, 4]] =
      Except.ok [[1, 2], [-1 / 2, 1 / 2]] ∧
    mapE (fun cb =>
        (SnapshotTransformer.fit id (SnapshotTransformer.init cb.1) cb.2).bind
          (fun t => t.transform cb.2))
      ((⟨[⟨false, none, false⟩, ⟨true, none, false⟩], none⟩ : MultiConfig).cfgs.zip
        (splitSizes [1, 1] [[1, 2], [3, 4]])) =
      Except.ok (splitSizes [1, 1] [[1, 2], [-1 / 2, 1 / 2]]) :=
⟨by with_unfolding_all rfl, by with_unfolding_all rfl,
 multi_blockwise id ⟨[⟨false, none, false⟩, ⟨true, none, false⟩], none⟩
   [[1, 2], [3, 4]] [[1, 2], [-1 / 2, 1 / 2]]
   ⟨[1, 1],
     [⟨⟨false, none, false⟩, true, 1, none, none⟩,
      ⟨⟨true, none, false⟩, true, 1, some [7 / 2], none⟩]⟩
   (by with_unfolding_all rfl) (by with_unfolding_all rfl)⟩

/-! ### The Euler lifting maps are mutual inverses away from gamma = 1 -/

lemma zipWith_right_inv (f g : ℚ → ℚ → ℚ) :
    ∀ (A B : List ℚ), A.length = B.length →
    (∀ p ∈ A.zip B, g p.2 (f p.1 p.2) = p.1) →
    List.zipWith g B (List.zipWith f A B) = A := by
  intro A
  induction A with
  | nil =>
      intro B hlen _
      cases B with
      | nil => rfl
      | cons b bs => simp at hlen
  | cons a as ih =>
      intro B hlen hinv
      cases B with
      | nil => simp at hlen
      | cons b bs =>
          simp only [List.zipWith_cons_cons]
          rw [hinv (a, b) (by simp [List.zip_cons_cons])]
          refine congrArg (a :: ·) (ih bs (by simpa using hlen) ?_)
          intro p hp
          exact hinv p (by simp [List.zip_cons_cons, hp])

lemma zipWith_left_inv (f : ℚ → ℚ × ℚ → ℚ) (g : ℚ → ℚ × ℚ → ℚ)
    (hfg : ∀ a w, g (f a w) w = a) :
    ∀ (A : List ℚ) (B : List (ℚ × ℚ)), A.length = B.length →
    List.zipWith g (List.zipWith f A B) B = A := by
  intro A
  induction A with
  | nil =>
      intro B hlen
      cases B with
      | nil => rfl
      | cons b bs => simp at hlen
  | cons a as ih =>
      intro B hlen
      cases B with
      | nil => simp at hlen
      | cons b bs =>
          simp only [List.zipWith_cons_cons, hfg]
          exact congrArg (a :: ·) (ih bs (by simpa using hlen))

lemma drop_two_append (A B C : List ℚ) (n : Nat) (hA : A.length = n) (hB : B.length = n) :
    (A ++ (B ++ C)).drop (2 * n) = C := by
  rw [two_mul, ← List.drop_drop, List.drop_left' hA, List.drop_left' hB]

/-- C10 (amended): for the notebook's Euler lifting maps, on every state
whose length is a multiple of 3, whose density block is nonzero in every
entry, and for the same `gamma ≠ 1` in both calls, `unlift (lift state)`
recovers the state exactly.  (`gamma = 1` must be excluded: `unlift`
divides by `gamma - 1`, as the counterexample shows.) -/
theorem lift_unlift_inverse (n : Nat) (state : List ℚ) (gamma : ℚ)
    (hlen : state.length = 3 * n)
    (hrho : ∀ x ∈ state.take n, x ≠ 0)
    (hg : gamma ≠ 1) :
    unlift (lift state gamma) gamma = state := by
  have hg2 : gamma - 1 ≠ 0 := sub_ne_zero.2 hg
  have hn : state.length / 3 = n := by
    rw [hlen]
    exact Nat.mul_div_cancel_left n (by norm_num)
  have hsplit : split3 state =
      (state.take n, (state.drop n).take n, state.drop (2 * n)) := by
    unfold split3
    rw [hn]
  have hlr : (state.take n).length = n := by
    rw [List.length_take, hlen]
    omega
  have hlru : ((state.drop n).take n).length = n := by
    rw [List.length_take, List.length_drop, hlen]
    omega
  have hlre : (state.drop (2 * n)).length = n := by
    rw [List.length_drop, hlen]
    omega
  have hlu : (List.zipWith (fun a b => a / b) ((state.drop n).take n) (state.take n)).length
      = n := by
    rw [List.length_zipWith, hlr, hlru]
    exact Nat.min_self n
  have hlzip : ((state.take n).zip
      (List.zipWith (fun a b => a / b) ((state.drop n).take n) (state.take n))).length = n := by
    rw [List.length_zip, hlr, hlu]
    exact Nat.min_self n
  have hlp : (List.zipWith (fun re ru => (gamma - 1) * (re - (1 / 2) * ru.1 * ru.2 ^ 2))
      (state.drop (2 * n))
      ((state.take n).zip
        (List.zipWith (fun a b => a / b) ((state.drop n).take n) (state.take n)))).length
      = n := by
    rw [List.length_zipWith, hlre, hlzip]
    exact Nat.min_self n
  have hlz : ((state.take n).map (fun a => 1 / a)).length = n := by
    rw [List.length_map, hlr]
  have hlift : lift state gamma =
      List.zipWith (fun a b => a / b) ((state.drop n).take n) (state.take n) ++
      (List.zipWith (fun re ru => (gamma - 1) * (re - (1 / 2) * ru.1 * ru.2 ^ 2))
        (state.drop (2 * n))
        ((state.take n).zip
          (List.zipWith (fun a b => a / b) ((state.drop n).take n) (state.take n))) ++
      (state.take n).map (fun a => 1 / a)) := by
    unfold lift
    rw [hsplit, List.append_assoc]
  have hliftlen : (lift state gamma).length = 3 * n := by
    rw [hlift]
    simp only [List.length_append, hlu, hlp, hlz]
    ring
  have hn2 : (lift state gamma).length / 3 = n := by
    rw [hliftlen]
    exact Nat.mul_div_cancel_left n (by norm_num)
  have hsplit2 : split3 (lift state gamma) =
      (List.zipWith (fun a b => a / b) ((state.drop n).take n) (state.take n),
       List.zipWith (fun re ru => (gamma - 1) * (re - (1 / 2) * ru.1 * ru.2 ^ 2))
         (state.drop (2 * n))
         ((state.take n).zip
           (List.zipWith (fun a b => a / b) ((state.drop n).take n) (state.take n))),
       (state.take n).map (fun a => 1 / a)) := by
    unfold split3
    rw [hn2, hlift]
    refine congrArg₂ Prod.mk ?_ (congrArg₂ Prod.mk ?_ ?_)
    · exact List.take_left' hlu
    · rw [List.drop_left' hlu]
      exact List.take_left' hlp
    · exact drop_two_append _ _ _ n hlu hlp
  have hzr : ((state.take n).map (fun a => 1 / a)).map (fun a => 1 / a) = state.take n := by
    simp [List.map_map, Function.comp_def, one_div_one_div]
  have hru : List.zipWith (fun a b => a * b) (state.take n)
      (List.zipWith (fun a b => a / b) ((state.drop n).take n) (state.take n)) =
      (state.drop n).take n := by
    refine zipWith_right_inv (fun a b => a / b) (fun a b => a * b)
      ((state.drop n).take n) (state.take n) (by rw [hlru, hlr]) ?_
    intro p hp
    have hmem := (List.of_mem_zip hp).2
    show p.2 * (p.1 / p.2) = p.1
    rw [mul_comm]
    exact div_mul_cancel₀ p.1 (hrho p.2 hmem)
  have hre : List.zipWith
      (fun pp ru => pp / (gamma - 1) + (1 / 2) * ru.1 * ru.2 ^ 2)
      (List.zipWith (fun re ru => (gamma - 1) * (re - (1 / 2) * ru.1 * ru.2 ^ 2))
        (state.drop (2 * n))
        ((state.take n).zip
          (List.zipWith (fun a b => a / b) ((state.drop n).take n) (state.take n))))
      ((state.take n).zip
        (List.zipWith (fun a b => a / b) ((state.drop n).take n) (state.take n))) =
      state.drop (2 * n) := by
    refine zipWith_left_inv
      (fun re ru => (gamma - 1) * (re - (1 / 2) * ru.1 * ru.2 ^ 2))
      (fun pp ru => pp / (gamma - 1) + (1 / 2) * ru.1 * ru.2 ^ 2) ?_
      (state.drop (2 * n)) _ (by rw [hlre, hlzip])
    intro a w
    show (gamma - 1) * (a - (1 / 2) * w.1 * w.2 ^ 2) / (gamma - 1) +
        (1 / 2) * w.1 * w.2 ^ 2 = a
    rw [mul_div_cancel_left₀ _ hg2, sub_add_cancel]
  have hstate : state.take n ++ (state.drop n).take n ++ state.drop (2 * n) = state := by
    rw [List.append_assoc, two_mul, ← List.drop_drop, List.take_append_drop,
      List.take_append_drop]
  unfold unlift
  rw [hsplit2]
  simp only []
  rw [hzr, hru, hre]
  exact hstate

theorem lift_unlift_inverse_witness :
    ([1, 2, 3] : List ℚ).length = 3 * 1 ∧
    (∀ x ∈ ([1, 2, 3] : List ℚ).take 1, x ≠ 0) ∧
    (7 / 5 : ℚ) ≠ 1 ∧
    unlift (lift [1, 2, 3] (7 / 5)) (7 / 5) = [1, 2, 3] :=
⟨rfl, by with_unfolding_all decide, by with_unfolding_all decide,
 lift_unlift_inverse 1 [1, 2, 3] (7 / 5) rfl
   (by with_unfolding_all decide) (by with_unfolding_all decide)⟩
